import Mathlib

/-
Verification development for the orbit-server repository.

The definitions below are a shallow embedding of the JSON:API route
builder and request handlers (`routeHandlers`, `resourceRoutes`,
`errorHandler`, `handleOperations`, `handleAddRecord`,
`handleAddToRelatedRecords`, `handleRemoveFromRelatedRecords`,
`queryBuilderParams`, `filterQBParams`, `sortQBParams`) and of the
GraphQL schema builder (`makeExecutableSchema` with
`makeWhereInputType` / `makeOrderByInputType`, and the per-request
loader lookup `getDataLoader` / `dataLoaderMapFor`).

Async handlers are rendered as pure functions that also return the
trace of the source calls they issue; the abstract `Source` is
rendered as an explicit function argument (`update`, `applyOp`), and
JavaScript object identity (for the GraphQL loader `WeakMap`) as
numeric ids with explicit state passing.
-/

set_option autoImplicit false

namespace OrbitServer

/-! String transforms from the `@orbit/utils` / `inflected` helpers the
route and GraphQL builders call.  `decamelize` inserts an underscore
between a lowercase-or-digit character and an uppercase character and
lowercases the result; `dasherize` additionally turns spaces and
underscores into dashes; `camelize` removes separator runs, uppercases
the character following a run, and lowercases a character at the start
of the string or right after a slash; `capitalize` uppercases the
first character.  ASCII semantics, matching the regexes used there. -/

def decamelizeGo (prev : Char) : List Char → List Char
  | [] => []
  | c :: cs =>
    if (prev.isLower || prev.isDigit) && c.isUpper then
      '_' :: c :: decamelizeGo c cs
    else
      c :: decamelizeGo c cs

def decamelizeChars : List Char → List Char
  | [] => []
  | c :: cs => c :: decamelizeGo c cs

def decamelize (s : String) : String :=
  ⟨(decamelizeChars s.data).map Char.toLower⟩

def dashChar (c : Char) : Char :=
  if c = ' ' || c = '_' then '-' else c

def dasherize (s : String) : String :=
  ⟨(decamelize s).data.map dashChar⟩

def isCamelizeSep (c : Char) : Bool :=
  c = '-' || c = '_' || c = '.' || c = ' '

def camelizeGo (sepSeen : Bool) : List Char → List Char
  | [] => []
  | c :: cs =>
    if isCamelizeSep c then camelizeGo true cs
    else if sepSeen then c.toUpper :: camelizeGo false cs
    else c :: camelizeGo false cs

def camelizeLower (prev : Option Char) : List Char → List Char
  | [] => []
  | c :: cs =>
    (if prev = none || prev = some '/' then c.toLower else c) ::
      camelizeLower (some c) cs

def camelize (s : String) : String :=
  ⟨camelizeLower none (camelizeGo false s.data)⟩

def capitalize (s : String) : String :=
  match s.data with
  | [] => ""
  | c :: cs => ⟨c.toUpper :: cs⟩

/-! Schema model: `Schema` from `@orbit/data` as consumed by the route
and GraphQL builders — a map of model definitions (attributes with a
primitive kind, relationships with a kind and target model) plus the
pluralization function.  Association lists keep the iteration order of
the JavaScript objects. -/

inductive AttrKind
  | string
  | number
  | boolean
  | date
  | datetime
deriving DecidableEq, Repr

inductive RelKind
  | hasOne
  | hasMany
deriving DecidableEq, Repr

structure RelationshipDef where
  kind : RelKind
  model : String
deriving DecidableEq, Repr

structure ModelDef where
  attributes : List (String × AttrKind)
  relationships : List (String × RelationshipDef)
deriving DecidableEq, Repr

def lookupStr {α : Type} : List (String × α) → String → Option α
  | [], _ => none
  | kv :: rest, key => if kv.1 = key then some kv.2 else lookupStr rest key

structure Schema where
  models : List (String × ModelDef)
  pluralize : String → String

def modelAttributes (schema : Schema) (type : String) : List (String × AttrKind) :=
  match lookupStr schema.models type with
  | some m => m.attributes
  | none => []

def modelRelationships (schema : Schema) (type : String) : List (String × RelationshipDef) :=
  match lookupStr schema.models type with
  | some m => m.relationships
  | none => []

def hasAttribute (schema : Schema) (type attr : String) : Bool :=
  match lookupStr schema.models type with
  | some m => (lookupStr m.attributes attr).isSome
  | none => false

/-! Serializer model: the `JSONAPISerializer` methods the handlers
call.  The class itself lives in the external `@orbit/jsonapi`
package, so the methods are function fields here; `defaultSerializer`
is modelled from the spec (camel-case internal property ↔ dash-case
wire field, dash-cased pluralized resource types), matching the
package defaults. -/

structure SerializerModel where
  resourceType : String → String
  resourceRelationship : String → String → String
  recordAttribute : String → String → String

/-- Modelled from the spec: the deterministic resource-document codec
name transforms (`resourceType` = dash-cased pluralized type,
`resourceRelationship` = dash-cased relationship property,
`recordAttribute` = camelized wire attribute); the implementing class
is in the external `@orbit/jsonapi` package, not under `src/`. -/
def defaultSerializer (schema : Schema) : SerializerModel :=
  ⟨fun t => dasherize (schema.pluralize t),
   fun _ r => dasherize r,
   fun _ a => camelize a⟩

/-! Route model: `RouteDefinition` from `src/unnamed/part_015` — the
handler functions are identified by name. -/

inductive HTTPMethod
  | get
  | post
  | patch
  | delete
deriving DecidableEq, Repr

inductive HandlerTag
  | findRecords
  | findRecord
  | updateRecord
  | removeRecord
  | addRecord
  | findRelatedRecords
  | findRelatedRecord
  | addToRelated
  | removeFromRelated
  | replaceRelatedRecords
  | replaceRelatedRecord
  | operations
deriving DecidableEq, Repr

structure RouteDefinition where
  method : HTTPMethod
  url : String
  paramType : String
  paramRelationship : Option String
  handler : HandlerTag
deriving DecidableEq, Repr

def isGet (r : RouteDefinition) : Bool :=
  match r.method with
  | .get => true
  | _ => false

structure RouteHandlersArgs where
  schema : Schema
  serializer : SerializerModel
  readonly : Bool

/-- Routes pushed by the `schema.eachRelationship` callback in
`resourceRoutes` (`src/unnamed/part_015` lines 215-266): the read
route is mounted at `/:id/` followed by the internal property name,
the mutation routes at `/:id/relationships/` followed by
`serializer.resourceRelationship(type, property)`. -/
def relationshipRoutes (args : RouteHandlersArgs) (type property : String)
    (kind : RelKind) : List RouteDefinition :=
  let url := "/:id/relationships/" ++ args.serializer.resourceRelationship type property
  match kind with
  | .hasMany =>
    ⟨.get, "/:id/" ++ property, type, some property, .findRelatedRecords⟩ ::
      (if args.readonly then [] else
        [⟨.post, url, type, some property, .addToRelated⟩,
         ⟨.delete, url, type, some property, .removeFromRelated⟩,
         ⟨.patch, url, type, some property, .replaceRelatedRecords⟩])
  | .hasOne =>
    ⟨.get, "/:id/" ++ property, type, some property, .findRelatedRecord⟩ ::
      (if args.readonly then [] else
        [⟨.patch, url, type, some property, .replaceRelatedRecord⟩])

/-- The `resourceRoutes` function of `src/unnamed/part_015`: two read
routes, three mutation routes when not readonly, then the relationship
routes in relationship order. -/
def resourceRoutes (args : RouteHandlersArgs) (type : String) : List RouteDefinition :=
  ([⟨.get, "/", type, none, .findRecords⟩,
    ⟨.get, "/:id", type, none, .findRecord⟩] ++
   (if args.readonly then [] else
     [⟨.patch, "/:id", type, none, .updateRecord⟩,
      ⟨.delete, "/:id", type, none, .removeRecord⟩,
      ⟨.post, "/", type, none, .addRecord⟩])) ++
  (modelRelationships args.schema type).flatMap
    (fun pr => relationshipRoutes args type pr.1 pr.2.kind)

/-- The `routeHandlers` function of `src/unnamed/part_015`: one route
group per model type keyed by `serializer.resourceType(type)`, plus —
only when not readonly — the `/operations` group bound to
`handleOperations`. -/
def routeHandlers (args : RouteHandlersArgs) : List (String × List RouteDefinition) :=
  (args.schema.models.map
    (fun tm => (args.serializer.resourceType tm.1, resourceRoutes args tm.1))) ++
  (if args.readonly then [] else
    [("/operations", [⟨.patch, "/", "operations", none, .operations⟩])])

/-! GraphQL schema builder model, from `makeExecutableSchema` /
`makeModelType` / `makeOrderByInputType` / `makeWhereInputType` in
`src/src/index.ts`.  GraphQL type references are rendered
symbolically. -/

inductive GQLType
  | id
  | string
  | int
  | boolean
  | date
  | datetime
  | list (t : GQLType)
  | nonNull (t : GQLType)
  | objectRef (name : String)
  | enumRef (name : String)
  | inputRef (name : String)
deriving DecidableEq, Repr

/-- The fixed scalar table of `getAttributeGraphQLType`; in the source the
`default` branch throws at build time on a kind outside the
`AttrKind` enumeration, which the closed enumeration renders
unreachable. -/
def getAttributeGraphQLType : AttrKind → GQLType
  | .string => .string
  | .number => .int
  | .boolean => .boolean
  | .date => .date
  | .datetime => .datetime

def classify (s : String) : String :=
  capitalize (camelize s)

inductive SortOrder
  | ascending
  | descending
deriving DecidableEq, Repr

structure SortQBParamM where
  attr : String
  order : SortOrder
deriving DecidableEq, Repr

structure GQLEnum where
  name : String
  values : List (String × SortQBParamM)
deriving DecidableEq, Repr

structure GQLInputObject where
  name : String
  fields : List (String × GQLType)
deriving DecidableEq, Repr

/-- The `makeOrderByInputType` function of `src/src/index.ts`: an enum
named after the classified type, with `id_ASC` / `id_DESC` first and a
`_ASC` / `_DESC` pair per attribute, each value carrying the sort
parameter it stands for.  The source memoizes the constructed enum in
the `enums` record; the construction itself is this pure function of
the schema. -/
def makeOrderByInputType (schema : Schema) (type : String) : GQLEnum :=
  ⟨classify type ++ "OrderByInput",
   [("id_ASC", ⟨"id", .ascending⟩), ("id_DESC", ⟨"id", .descending⟩)] ++
     (modelAttributes schema type).flatMap
       (fun pa => [(pa.1 ++ "_ASC", ⟨pa.1, .ascending⟩),
                   (pa.1 ++ "_DESC", ⟨pa.1, .descending⟩)])⟩

/-- The `makeWhereInputType` function of `src/src/index.ts`: an input
object named after the classified type, with `id` / `id_in` fields and
an equality, `_not`, `_in`, `_not_in` field per attribute.  The source
memoizes the constructed input type in the `inputs` record. -/
def makeWhereInputType (schema : Schema) (type : String) : GQLInputObject :=
  ⟨classify type ++ "WhereInput",
   [("id", .id), ("id_in", .list .id)] ++
     (modelAttributes schema type).flatMap
       (fun pa =>
         [(pa.1, getAttributeGraphQLType pa.2),
          (pa.1 ++ "_not", getAttributeGraphQLType pa.2),
          (pa.1 ++ "_in", .list (getAttributeGraphQLType pa.2)),
          (pa.1 ++ "_not_in", .list (getAttributeGraphQLType pa.2))])⟩

structure GQLArg where
  name : String
  type : GQLType
deriving DecidableEq, Repr

structure GQLField where
  name : String
  type : GQLType
  args : List GQLArg
deriving DecidableEq, Repr

/-- The root `Query` fields built by `makeExecutableSchema` in
`src/src/index.ts`: per model type, a singular field taking a non-null
`id` and a plural field (keyed by `schema.pluralize(type)`) taking
`orderBy` (the generated enum) and `where` (the generated input
type). -/
def makeQueryFields (schema : Schema) : List GQLField :=
  schema.models.flatMap
    (fun tm =>
      [⟨tm.1, .objectRef (classify tm.1), [⟨"id", .nonNull .id⟩]⟩,
       ⟨schema.pluralize tm.1,
        .nonNull (.list (.objectRef (classify tm.1))),
        [⟨"orderBy", .enumRef (makeOrderByInputType schema tm.1).name⟩,
         ⟨"where", .inputRef (makeWhereInputType schema tm.1).name⟩]⟩])

/-! Per-request GraphQL loader lookup, from `getDataLoader` /
`dataLoaderMapFor` in `src/src/index.ts` (also `src/unnamed/part_010`
lines 556-581).  The module-level `WeakMap` keyed by context object
identity is rendered as explicit state: context objects are numeric
ids, `DataLoader` instances are numeric ids drawn from a counter, and
the `WeakMap`-of-`Map`s is an association list. -/

structure LoaderState where
  table : List (Nat × List (String × Nat))
  next : Nat
deriving DecidableEq, Repr

def lookupNat {α : Type} : List (Nat × α) → Nat → Option α
  | [], _ => none
  | kv :: rest, key => if kv.1 = key then some kv.2 else lookupNat rest key

def setNat {α : Type} : List (Nat × α) → Nat → α → List (Nat × α)
  | [], key, v => [(key, v)]
  | kv :: rest, key, v =>
    if kv.1 = key then (key, v) :: rest else kv :: setNat rest key v

/-- The `getDataLoader` / `dataLoaderMapFor` pair: fetch (or create and
store) the per-context namespace map, then fetch (or create and store)
the per-namespace loader.  Returns the loader id and the updated
state; a fresh loader takes the current counter value. -/
def getDataLoader (ctx : Nat) (ns : String) (s : LoaderState) : Nat × LoaderState :=
  let m := (lookupNat s.table ctx).getD []
  match lookupStr m ns with
  | some l => (l, s)
  | none =>
    (s.next, LoaderState.mk (setNat s.table ctx ((ns, s.next) :: m)) (s.next + 1))

/-- Predicate describing where a loader id is stored: under context
`c` and namespace `ns` the state holds loader `l`. -/
def storedIn (s : LoaderState) (c : Nat) (ns : String) (l : Nat) : Prop :=
  ∃ m, lookupNat s.table c = some m ∧ lookupStr m ns = some l

/-- Well-formedness of a loader state: every stored loader id is below
the allocation counter, and no loader id is stored at two distinct
(context, namespace) slots — the invariant the `new DataLoader(...)`
allocation maintains. -/
def WFLoader (s : LoaderState) : Prop :=
  (∀ c ns l, storedIn s c ns l → l < s.next)
  ∧ (∀ c₁ ns₁ c₂ ns₂ l, storedIn s c₁ ns₁ l → storedIn s c₂ ns₂ l →
      c₁ = c₂ ∧ ns₁ = ns₂)

/-! Record and operation model, from `@orbit/data` as used by the
handlers in `src/unnamed/part_015`. -/

structure RecordIdentityM where
  type : String
  id : String
deriving DecidableEq, Repr

structure OrbitRecordM where
  type : String
  id : String
  attributes : List (String × String)
deriving DecidableEq, Repr

inductive ROp
  | addRecord (record : OrbitRecordM)
  | updateRecord (record : OrbitRecordM)
  | removeRecord (record : RecordIdentityM)
  | replaceRelatedRecord (record : RecordIdentityM) (relationship : String)
      (relatedRecord : Option RecordIdentityM)
  | replaceRelatedRecords (record : RecordIdentityM) (relationship : String)
      (relatedRecords : List RecordIdentityM)
  | addToRelatedRecords (record : RecordIdentityM) (relationship : String)
      (relatedRecord : RecordIdentityM)
  | removeFromRelatedRecords (record : RecordIdentityM) (relationship : String)
      (relatedRecord : RecordIdentityM)
deriving DecidableEq, Repr

/-! The `handleOperations` handler (`src/unnamed/part_015` lines
481-509).  `schema.initializeRecord` (which assigns a generated id to
a record lacking one, in place) is the `initRecord` argument; the
source, `source.update`, is the `update` argument mapping one
submitted operation list — a single Transform — to the per-operation
result records; `serializer.serialize` is the `serialize` argument.
The loop over the deserialized operations is `initLoop`, which returns
both the trace of `initializeRecord` calls and the operation list as
submitted (add-record payloads initialized in place). -/

def initLoop (initRecord : OrbitRecordM → OrbitRecordM) :
    List ROp → List OrbitRecordM × List ROp
  | [] => ([], [])
  | op :: rest =>
    let tr := initLoop initRecord rest
    match op with
    | .addRecord r => (r :: tr.1, .addRecord (initRecord r) :: tr.2)
    | o => (tr.1, o :: tr.2)

/-- Per-operation effect of the initialization loop, used to state
what `initLoop` does to the submitted list. -/
def opInit (initRecord : OrbitRecordM → OrbitRecordM) : ROp → ROp
  | .addRecord r => .addRecord (initRecord r)
  | o => o

structure OperationsRunResult (Doc : Type) where
  initCalls : List OrbitRecordM
  updateCalls : List (List ROp)
  status : Nat
  responseOperations : List Doc
deriving DecidableEq, Repr

def handleOperations {Doc : Type} (initRecord : OrbitRecordM → OrbitRecordM)
    (update : List ROp → List OrbitRecordM) (serialize : OrbitRecordM → Doc)
    (operations : List ROp) : OperationsRunResult Doc :=
  let ini := initLoop initRecord operations
  let records := update ini.2
  ⟨ini.1, [ini.2], 200, records.map serialize⟩

/-! The `handleAddToRelatedRecords` / `handleRemoveFromRelatedRecords`
handlers (`src/unnamed/part_015` lines 395-433): a `for` loop over the
deserialized identities, each iteration awaiting its own
`source.update` with a single relationship operation on
`{ id, type }`.  The functions below return, in order, the operations
those per-iteration update calls submit. -/

def handleAddToRelatedRecordsCalls (type id relationship : String) :
    List RecordIdentityM → List ROp
  | [] => []
  | identity :: rest =>
    .addToRelatedRecords ⟨type, id⟩ relationship identity ::
      handleAddToRelatedRecordsCalls type id relationship rest

def handleRemoveFromRelatedRecordsCalls (type id relationship : String) :
    List RecordIdentityM → List ROp
  | [] => []
  | identity :: rest =>
    .removeFromRelatedRecords ⟨type, id⟩ relationship identity ::
      handleRemoveFromRelatedRecordsCalls type id relationship rest

/-- Sequential execution of independently awaited update calls against
an abstract source: each operation either produces the next source
state or fails; a failure stops the loop (the exception propagates),
leaving the state reached so far — no compensation is issued. -/
def runCalls {St E : Type} (applyOp : ROp → St → Except E St) :
    List ROp → St → St × Option E
  | [], s => (s, none)
  | op :: rest, s =>
    match applyOp op s with
    | .ok s1 => runCalls applyOp rest s1
    | .error e => (s, some e)

/-- All-success run of a call list, used to describe the state reached
after a successful run of the first calls. -/
def runCallsOk {St E : Type} (applyOp : ROp → St → Except E St) :
    List ROp → St → Option St
  | [], s => some s
  | op :: rest, s =>
    match applyOp op s with
    | .ok s1 => runCallsOk applyOp rest s1
    | .error _ => none

/-! The `handleAddRecord` handler (`src/unnamed/part_015` lines
314-337): deserialize the body, submit one `addRecord` update, and
answer 201 with a `location` of the request url, a slash and the id of
the record the source returned, and that record serialized.  The
`include` hint and headers are forwarded opaquely inside the source
options and do not affect the response shape. -/

structure AddRecordResponse (Doc : Type) where
  status : Nat
  location : String
  document : Doc
deriving DecidableEq, Repr

def handleAddRecord {Doc : Type} (deserialize : Doc → OrbitRecordM)
    (update : OrbitRecordM → OrbitRecordM) (serialize : OrbitRecordM → Doc)
    (url : String) (body : Doc) : AddRecordResponse Doc :=
  let data := deserialize body
  let record := update data
  ⟨201, url ++ "/" ++ record.id, serialize record⟩

/-! The `errorHandler` function (`src/unnamed/part_015` lines
148-171).  The `@orbit/data` exception classes are rendered as a
closed inductive; `RecordNotFoundException` is a subclass of
`RecordException` in the source, and the `instanceof` chain tests it
first, so the disjoint constructors reproduce the dispatch.  The
handler first awaits `source.requestQueue.clear()` with
`.catch(() => ...)` — rendered as `catchClear` over the clear
outcome — and only then builds the response, so the whole handler is
the `Except` bind of the caught clear step and the pure response. -/

inductive SourceError
  | recordNotFound (message : String) (description : String)
  | clientError (message : String) (description : String) (responseStatus : Nat)
  | serverError (message : String) (description : String) (responseStatus : Nat)
  | schemaError (message : String) (description : String)
  | recordException (message : String) (description : String)
  | other (message : String)
deriving DecidableEq, Repr

def errMessage : SourceError → String
  | .recordNotFound m _ => m
  | .clientError m _ _ => m
  | .serverError m _ _ => m
  | .schemaError m _ => m
  | .recordException m _ => m
  | .other m => m

structure ResourceErrorM where
  id : String
  title : String
  detail : String
  code : Nat
deriving DecidableEq, Repr

structure ErrorsDocumentM where
  errors : List ResourceErrorM
deriving DecidableEq, Repr

/-- Response construction of `errorHandler`: `title` is the error
message, `detail` starts as the empty string and `code` as 500, and
the `instanceof` chain overwrites them for the recognized kinds
(`ClientError` / `ServerError` take the proxied response status). -/
def errorResponse (generatedId : String) (e : SourceError) : Nat × ErrorsDocumentM :=
  let title := errMessage e
  let dc : String × Nat :=
    match e with
    | .recordNotFound _ d => (d, 404)
    | .clientError _ d s => (d, s)
    | .serverError _ d s => (d, s)
    | .schemaError _ d => (d, 400)
    | .recordException _ d => (d, 400)
    | .other _ => ("", 500)
  (dc.2, ⟨[⟨generatedId, title, dc.1, dc.2⟩]⟩)

/-- The `.catch` attached to `source.requestQueue.clear()`: a rejected
clear is replaced by a successful unit result. -/
def catchClear (clearOutcome : Except String Unit) : Except String Unit :=
  match clearOutcome with
  | .error _ => .ok ()
  | .ok _ => .ok ()

def errorHandler (clearOutcome : Except String Unit) (generatedId : String)
    (e : SourceError) : Except String (Nat × ErrorsDocumentM) :=
  (catchClear clearOutcome).bind (fun _ => .ok (errorResponse generatedId e))

/-- Status mapping as the claim states it, for comparison with
`errorHandler`. -/
def claimedStatus : SourceError → Nat
  | .recordNotFound _ _ => 404
  | .clientError _ _ s => s
  | .serverError _ _ s => s
  | .schemaError _ _ => 400
  | .recordException _ _ => 400
  | .other _ => 500

/-- Detail mapping as the claim states it: the exception description
for the recognized kinds, the empty string otherwise. -/
def claimedDetail : SourceError → String
  | .recordNotFound _ d => d
  | .clientError _ d _ => d
  | .serverError _ d _ => d
  | .schemaError _ d => d
  | .recordException _ d => d
  | .other _ => ""

/-! Find-many query translation (`queryBuilderParams` /
`filterQBParams` / `sortQBParams`, `src/unnamed/part_015` lines
520-575).  The query term is rendered as the filter and sort
parameter lists it accumulates; `term.filter(...)` receives all filter
clauses of the request in one call (the source combines them with
AND), and `term.sort(...)` all sort keys in listed order. -/

structure FilterQBParamM where
  op : String
  attr : String
  value : String
deriving DecidableEq, Repr

structure QueryTermM where
  filterParams : List FilterQBParamM
  sortParams : List SortQBParamM
deriving DecidableEq, Repr

def termFilter (t : QueryTermM) (ps : List FilterQBParamM) : QueryTermM :=
  ⟨t.filterParams ++ ps, t.sortParams⟩

def termSort (t : QueryTermM) (ps : List SortQBParamM) : QueryTermM :=
  ⟨t.filterParams, t.sortParams ++ ps⟩

/-- Test for the leading dash sort-key marker, the `startsWith` call
on the sort property. -/
def startsWithDash (s : String) : Bool :=
  match s.data with
  | [] => false
  | c :: _ => c = '-'

def splitOnCommaChars (acc : List Char) : List Char → List String
  | [] => [⟨acc.reverse⟩]
  | c :: cs =>
    if c = ',' then ⟨acc.reverse⟩ :: splitOnCommaChars [] cs
    else splitOnCommaChars (c :: acc) cs

/-- The comma split of the sort parameter in `sortQBParams`. -/
def splitOnComma (s : String) : List String :=
  splitOnCommaChars [] s.data

def filterQBParams (ser : SerializerModel) (schema : Schema) (type : String) :
    List (String × String) → List FilterQBParamM
  | [] => []
  | pv :: rest =>
    if hasAttribute schema type (ser.recordAttribute type pv.1) then
      ⟨"equal", ser.recordAttribute type pv.1, pv.2⟩ ::
        filterQBParams ser schema type rest
    else
      filterQBParams ser schema type rest

def sortQBParamsList (ser : SerializerModel) (schema : Schema) (type : String) :
    List String → List SortQBParamM
  | [] => []
  | property :: rest =>
    if hasAttribute schema type
        (ser.recordAttribute type
          (if startsWithDash property then property.drop 1 else property)) then
      ⟨ser.recordAttribute type
          (if startsWithDash property then property.drop 1 else property),
        if startsWithDash property then .descending else .ascending⟩ ::
        sortQBParamsList ser schema type rest
    else
      sortQBParamsList ser schema type rest

def sortQBParams (ser : SerializerModel) (schema : Schema) (type : String)
    (sort : String) : List SortQBParamM :=
  sortQBParamsList ser schema type (splitOnComma sort)

def queryBuilderParams (ser : SerializerModel) (schema : Schema) (type : String)
    (term : QueryTermM) (filter : Option (List (String × String)))
    (sort : Option String) : QueryTermM :=
  let term1 :=
    match filter with
    | some f => termFilter term (filterQBParams ser schema type f)
    | none => term
  match sort with
  | some s => termSort term1 (sortQBParams ser schema type s)
  | none => term1

/-! Helper tags naming the read and replace handlers bound for a
relationship of a given kind, used to state route-shape properties. -/

def relReadHandler : RelKind → HandlerTag
  | .hasMany => .findRelatedRecords
  | .hasOne => .findRelatedRecord

def relReplaceHandler : RelKind → HandlerTag
  | .hasMany => .replaceRelatedRecords
  | .hasOne => .replaceRelatedRecord

/-! Concrete test fixtures (a small solar-system schema in the style
of the repository test suite), used to instantiate the theorems
below at concrete inputs. -/

def planetModel : ModelDef :=
  ⟨[("name", .string), ("createdAt", .datetime)],
   [("exoMoons", ⟨.hasMany, "moon"⟩), ("star", ⟨.hasOne, "star"⟩)]⟩

def moonModel : ModelDef :=
  ⟨[("name", .string)], [("planet", ⟨.hasOne, "planet"⟩)]⟩

def starModel : ModelDef :=
  ⟨[("name", .string)], []⟩

def testSchema : Schema :=
  ⟨[("planet", planetModel), ("moon", moonModel), ("star", starModel)],
   fun t => t ++ "s"⟩

/-- Test source for relationship updates: records the related ids in
order and fails on the id `bad`. -/
def applyOpTest : ROp → List String → Except Unit (List String)
  | .addToRelatedRecords _ _ y, s =>
    if y.id = "bad" then .error () else .ok (y.id :: s)
  | .removeFromRelatedRecords _ _ y, s =>
    if y.id = "bad" then .error () else .ok (y.id :: s)
  | _, s => .ok s

/-! Theorems. -/

theorem initLoop_submitted (initRecord : OrbitRecordM → OrbitRecordM)
    (ops : List ROp) :
    (initLoop initRecord ops).2 = ops.map (opInit initRecord) := by
  induction ops with
  | nil => rfl
  | cons op rest ih => cases op <;> simp [initLoop, opInit, ih]

theorem initLoop_calls (initRecord : OrbitRecordM → OrbitRecordM)
    (ops : List ROp) :
    (initLoop initRecord ops).1
      = ops.filterMap
          (fun op => match op with | .addRecord r => some r | _ => none) := by
  induction ops with
  | nil => rfl
  | cons op rest ih => cases op <;> simp [initLoop, ih]

/-- C2: `handleOperations` calls the record initializer exactly on the
payloads of the deserialized add-record operations (before
submission), submits the entire deserialized operation list in one
`source.update` call (a single Transform), and answers with the i-th
entry of its operations array equal to the serialization of the i-th
record the source returned, so response order equals request order. -/
theorem claim_C2 {Doc : Type} (initRecord : OrbitRecordM → OrbitRecordM)
    (update : List ROp → List OrbitRecordM) (serialize : OrbitRecordM → Doc)
    (operations : List ROp) :
    (handleOperations initRecord update serialize operations).updateCalls
        = [operations.map (opInit initRecord)]
    ∧ (handleOperations initRecord update serialize operations).initCalls
        = operations.filterMap
            (fun op => match op with | .addRecord r => some r | _ => none)
    ∧ ∀ i : Nat,
        (handleOperations initRecord update serialize operations).responseOperations[i]?
          = ((update (operations.map (opInit initRecord)))[i]?).map serialize := by
  refine ⟨?_, ?_, ?_⟩
  · simp [handleOperations, initLoop_submitted]
  · simp [handleOperations, initLoop_calls]
  · intro i
    simp [handleOperations, initLoop_submitted]

/-- C3: `errorHandler` answers 404 for a record-not-found exception,
the proxied response status for a client or server error, 400 for a
schema error or record exception, and 500 otherwise, with a document
holding exactly one error entry whose id is the generated id, whose
title is the exception message, whose detail is the exception
description for the recognized kinds (empty otherwise), and whose code
equals the returned status. -/
theorem claim_C3 (clearOutcome : Except String Unit) (generatedId : String)
    (e : SourceError) :
    errorHandler clearOutcome generatedId e
      = .ok (claimedStatus e,
          ⟨[⟨generatedId, errMessage e, claimedDetail e, claimedStatus e⟩]⟩) := by
  cases clearOutcome <;> cases e <;> rfl

/-- C8: `errorHandler` awaits the request-queue clear before building
the error response, and a rejection of that clear is swallowed: the
handler still returns the mapped status and error document (the
`Except` value is `ok`, identical to the successful-clear run) and
never re-raises the clear failure. -/
theorem claim_C8 (generatedId : String) (e : SourceError) (failure : String) :
    errorHandler (.error failure) generatedId e
        = errorHandler (.ok ()) generatedId e
    ∧ errorHandler (.error failure) generatedId e
        = .ok (errorResponse generatedId e) :=
  ⟨rfl, rfl⟩

/-- C7: for a create request the source completes, `handleAddRecord`
answers 201, a location header of the request url followed by a slash
and the id of the record the source returned, and the serialization of
that returned record (with its server-populated fields) as the body. -/
theorem claim_C7 {Doc : Type} (deserialize : Doc → OrbitRecordM)
    (update : OrbitRecordM → OrbitRecordM) (serialize : OrbitRecordM → Doc)
    (url : String) (body : Doc) :
    (handleAddRecord deserialize update serialize url body).status = 201
    ∧ (handleAddRecord deserialize update serialize url body).location
        = url ++ "/" ++ (update (deserialize body)).id
    ∧ (handleAddRecord deserialize update serialize url body).document
        = serialize (update (deserialize body)) :=
  ⟨rfl, rfl, rfl⟩

theorem filterQBParams_eq (ser : SerializerModel) (schema : Schema) (type : String)
    (fil : List (String × String)) :
    filterQBParams ser schema type fil
      = fil.filterMap (fun pv =>
          if hasAttribute schema type (ser.recordAttribute type pv.1) then
            some ⟨"equal", ser.recordAttribute type pv.1, pv.2⟩
          else none) := by
  induction fil with
  | nil => rfl
  | cons pv rest ih =>
    simp only [filterQBParams, List.filterMap_cons]
    split <;> simp [ih]

theorem sortQBParamsList_eq (ser : SerializerModel) (schema : Schema) (type : String)
    (keys : List String) :
    sortQBParamsList ser schema type keys
      = keys.filterMap (fun property =>
          if hasAttribute schema type
              (ser.recordAttribute type
                (if startsWithDash property then property.drop 1 else property)) then
            some ⟨ser.recordAttribute type
                (if startsWithDash property then property.drop 1 else property),
              if startsWithDash property then .descending else .ascending⟩
          else none) := by
  induction keys with
  | nil => rfl
  | cons property rest ih =>
    simp only [sortQBParamsList, List.filterMap_cons]
    split <;> split <;> simp [ih]

/-- C4: each filter pair whose wire key translates (via
`recordAttribute`) to a declared attribute contributes exactly one
equality clause, all passed to the term in one `filter` call (AND);
each comma-separated sort key contributes an ascending sort, or
descending when `-`-prefixed, in listed order; and a filter or sort
key whose translated attribute is not declared is dropped silently,
producing neither an error nor any clause. -/
theorem claim_C4 (ser : SerializerModel) (schema : Schema) (type : String)
    (term : QueryTermM) (fil : List (String × String)) (sortStr : String)
    (k v sk : String)
    (hk : hasAttribute schema type (ser.recordAttribute type k) = false)
    (hs : hasAttribute schema type
        (ser.recordAttribute type
          (if startsWithDash sk then sk.drop 1 else sk)) = false) :
    filterQBParams ser schema type fil
      = fil.filterMap (fun pv =>
          if hasAttribute schema type (ser.recordAttribute type pv.1) then
            some ⟨"equal", ser.recordAttribute type pv.1, pv.2⟩
          else none)
    ∧ sortQBParams ser schema type sortStr
      = (splitOnComma sortStr).filterMap (fun property =>
          if hasAttribute schema type
              (ser.recordAttribute type
                (if startsWithDash property then property.drop 1 else property)) then
            some ⟨ser.recordAttribute type
                (if startsWithDash property then property.drop 1 else property),
              if startsWithDash property then .descending else .ascending⟩
          else none)
    ∧ queryBuilderParams ser schema type term (some fil) (some sortStr)
      = ⟨term.filterParams ++ filterQBParams ser schema type fil,
         term.sortParams ++ sortQBParams ser schema type sortStr⟩
    ∧ filterQBParams ser schema type ((k, v) :: fil)
        = filterQBParams ser schema type fil
    ∧ sortQBParamsList ser schema type (sk :: splitOnComma sortStr)
        = sortQBParamsList ser schema type (splitOnComma sortStr) := by
  refine ⟨filterQBParams_eq ser schema type fil,
    sortQBParamsList_eq ser schema type (splitOnComma sortStr), rfl, ?_, ?_⟩
  · simp [filterQBParams, hk]
  · simp [sortQBParamsList, hs]

/-- C4 witness: an unknown dash-cased filter key on the test schema
contributes no clause. -/
theorem claim_C4_witness :
    hasAttribute testSchema "planet"
        ((defaultSerializer testSchema).recordAttribute "planet" "unknown-attr")
      = false
    ∧ hasAttribute testSchema "planet"
        ((defaultSerializer testSchema).recordAttribute "planet"
          (if startsWithDash "-unknown" then ("-unknown" : String).drop 1
           else "-unknown"))
      = false
    ∧ filterQBParams (defaultSerializer testSchema) testSchema "planet"
        (("unknown-attr", "x") :: [("name", "Earth")])
      = filterQBParams (defaultSerializer testSchema) testSchema "planet"
          [("name", "Earth")] :=
  ⟨by decide, by decide,
    (claim_C4 (defaultSerializer testSchema) testSchema "planet" ⟨[], []⟩
      [("name", "Earth")] "name" "unknown-attr" "x" "-unknown"
      (by decide) (by decide)).2.2.2.1⟩

theorem runCalls_append_error {St E : Type} (applyOp : ROp → St → Except E St)
    (pre post : List ROp) (op : ROp) (s0 s1 : St) (e : E)
    (hpre : runCallsOk applyOp pre s0 = some s1)
    (hfail : applyOp op s1 = .error e) :
    runCalls applyOp (pre ++ op :: post) s0 = (s1, some e) := by
  induction pre generalizing s0 with
  | nil =>
    simp only [runCallsOk, Option.some.injEq] at hpre
    subst hpre
    simp [runCalls, hfail]
  | cons p ps ih =>
    simp only [runCallsOk] at hpre
    cases happ : applyOp p s0 with
    | ok s2 =>
      rw [happ] at hpre
      simp only [List.cons_append, runCalls, happ]
      exact ih s2 hpre
    | error e2 =>
      rw [happ] at hpre
      simp at hpre

theorem handleAddToRelatedRecordsCalls_eq (t i rel : String)
    (data : List RecordIdentityM) :
    handleAddToRelatedRecordsCalls t i rel data
      = data.map (fun y => .addToRelatedRecords ⟨t, i⟩ rel y) := by
  induction data with
  | nil => rfl
  | cons x rest ih => simp [handleAddToRelatedRecordsCalls, ih]

theorem handleRemoveFromRelatedRecordsCalls_eq (t i rel : String)
    (data : List RecordIdentityM) :
    handleRemoveFromRelatedRecordsCalls t i rel data
      = data.map (fun y => .removeFromRelatedRecords ⟨t, i⟩ rel y) := by
  induction data with
  | nil => rfl
  | cons x rest ih => simp [handleRemoveFromRelatedRecordsCalls, ih]

/-- C5: the relationship-add and relationship-remove handlers issue
one `source.update` per identity of the request document, in document
order (N identities, N separate calls, one operation each), and when
the call for an identity fails after the calls before it succeeded,
the reached state keeps those prior applications and the run ends with
the error — no compensating rollback is issued. -/
theorem claim_C5 {St E : Type} (applyOp : ROp → St → Except E St)
    (t i rel : String) (dataA dataR pre post : List RecordIdentityM)
    (x : RecordIdentityM) (s0 s1 : St) (e : E)
    (hpre : runCallsOk applyOp (handleAddToRelatedRecordsCalls t i rel pre) s0
        = some s1)
    (hfail : applyOp (.addToRelatedRecords ⟨t, i⟩ rel x) s1 = .error e) :
    handleAddToRelatedRecordsCalls t i rel dataA
        = dataA.map (fun y => .addToRelatedRecords ⟨t, i⟩ rel y)
    ∧ (handleAddToRelatedRecordsCalls t i rel dataA).length = dataA.length
    ∧ handleRemoveFromRelatedRecordsCalls t i rel dataR
        = dataR.map (fun y => .removeFromRelatedRecords ⟨t, i⟩ rel y)
    ∧ (handleRemoveFromRelatedRecordsCalls t i rel dataR).length = dataR.length
    ∧ runCalls applyOp (handleAddToRelatedRecordsCalls t i rel (pre ++ x :: post)) s0
        = (s1, some e) := by
  refine ⟨handleAddToRelatedRecordsCalls_eq t i rel dataA, ?_,
    handleRemoveFromRelatedRecordsCalls_eq t i rel dataR, ?_, ?_⟩
  · rw [handleAddToRelatedRecordsCalls_eq]
    simp
  · rw [handleRemoveFromRelatedRecordsCalls_eq]
    simp
  · have hsplit : handleAddToRelatedRecordsCalls t i rel (pre ++ x :: post)
        = handleAddToRelatedRecordsCalls t i rel pre
          ++ ROp.addToRelatedRecords ⟨t, i⟩ rel x
            :: handleAddToRelatedRecordsCalls t i rel post := by
      simp [handleAddToRelatedRecordsCalls_eq]
    rw [hsplit]
    exact runCalls_append_error applyOp _ _ _ s0 s1 e hpre hfail

/-- C5 witness: on the test source, a failure at the second identity
leaves the first one applied and the third unattempted. -/
theorem claim_C5_witness :
    runCallsOk applyOpTest
        (handleAddToRelatedRecordsCalls "planet" "p1" "moons" [⟨"moon", "m1"⟩]) []
      = some ["m1"]
    ∧ applyOpTest
        (.addToRelatedRecords ⟨"planet", "p1"⟩ "moons" ⟨"moon", "bad"⟩) ["m1"]
      = .error ()
    ∧ runCalls applyOpTest
        (handleAddToRelatedRecordsCalls "planet" "p1" "moons"
          ([⟨"moon", "m1"⟩] ++ ⟨"moon", "bad"⟩ :: [⟨"moon", "m3"⟩])) []
      = (["m1"], some ()) :=
  ⟨rfl, rfl,
    (claim_C5 applyOpTest "planet" "p1" "moons" [] []
      [⟨"moon", "m1"⟩] [⟨"moon", "m3"⟩] ⟨"moon", "bad"⟩ [] ["m1"] ()
      rfl rfl).2.2.2.2⟩

theorem uint32_le_iff (a b : UInt32) : a ≤ b ↔ a.toNat ≤ b.toNat := by
  rw [UInt32.le_def, BitVec.le_def]
  rfl

theorem char_toNat_ofNat_valid (n : Nat) (h : n.isValidChar) :
    (Char.ofNat n).toNat = n := by
  rw [Char.ofNat, dif_pos h]
  simp [Char.ofNatAux, Char.toNat, UInt32.toNat]

theorem isUpper_toLower_eq_false (c : Char) : (Char.toLower c).isUpper = false := by
  rw [Char.toLower]
  split
  · next h =>
    have hv : (Char.toNat c + 32).isValidChar := by
      left
      show Char.toNat c + 32 < 55296
      omega
    have ht : (Char.ofNat (Char.toNat c + 32)).toNat = Char.toNat c + 32 :=
      char_toNat_ofNat_valid _ hv
    have hval : (Char.ofNat (Char.toNat c + 32)).val.toNat
        = (Char.ofNat (Char.toNat c + 32)).toNat := rfl
    simp only [Char.isUpper, Bool.and_eq_false_iff, decide_eq_false_iff_not, ge_iff_le]
    right
    rw [uint32_le_iff]
    have h90 : ((90 : UInt32)).toNat = 90 := rfl
    omega
  · next h =>
    have hval : c.val.toNat = Char.toNat c := rfl
    simp only [Char.isUpper, Bool.and_eq_false_iff, decide_eq_false_iff_not, ge_iff_le]
    rw [not_and_or] at h
    simp only [ge_iff_le, not_le] at h
    rcases h with h | h
    · left
      rw [uint32_le_iff]
      have : ((65 : UInt32)).toNat = 65 := rfl
      omega
    · right
      rw [uint32_le_iff]
      have : ((90 : UInt32)).toNat = 90 := rfl
      omega

theorem mem_dasherize_not_upper (s : String) :
    ∀ c ∈ (dasherize s).data, c.isUpper = false := by
  intro c hc
  have hd : (dasherize s).data
      = ((decamelizeChars s.data).map Char.toLower).map dashChar := rfl
  rw [hd] at hc
  rw [List.mem_map] at hc
  obtain ⟨b, hb, rfl⟩ := hc
  rw [List.mem_map] at hb
  obtain ⟨a, ha, rfl⟩ := hb
  unfold dashChar
  split
  · rfl
  · exact isUpper_toLower_eq_false a

theorem ne_dasherize_of_hasUpper (s : String)
    (h : s.data.any Char.isUpper = true) : s ≠ dasherize s := by
  intro heq
  rw [List.any_eq_true] at h
  obtain ⟨c, hc, hcu⟩ := h
  have hne := mem_dasherize_not_upper s c (by rw [← heq]; exact hc)
  rw [hne] at hcu
  exact Bool.false_ne_true hcu

/-- C10: for a relationship of the model, the generated read route is
mounted at `/:id/` followed by the internal property name verbatim,
while the mutation route for the same relationship (the replace route,
present for both kinds) is mounted at `/:id/relationships/` followed
by the dash-cased wire name from the serializer; for a property with an
uppercase (multi-word camelCase) character the two segments differ. -/
theorem claim_C10 (schema : Schema) (type property : String)
    (rel : RelationshipDef)
    (hmem : (property, rel) ∈ modelRelationships schema type)
    (hup : property.data.any Char.isUpper = true) :
    (RouteDefinition.mk .get ("/:id/" ++ property) type (some property)
        (relReadHandler rel.kind)
      ∈ resourceRoutes ⟨schema, defaultSerializer schema, false⟩ type)
    ∧ (RouteDefinition.mk .patch ("/:id/relationships/" ++ dasherize property)
        type (some property) (relReplaceHandler rel.kind)
      ∈ resourceRoutes ⟨schema, defaultSerializer schema, false⟩ type)
    ∧ property ≠ dasherize property := by
  refine ⟨?_, ?_, ne_dasherize_of_hasUpper property hup⟩
  all_goals
    unfold resourceRoutes
    rw [List.mem_append]
    right
    rw [List.mem_flatMap]
    refine ⟨(property, rel), hmem, ?_⟩
    cases hk : rel.kind <;>
      simp [relationshipRoutes, defaultSerializer, relReadHandler, relReplaceHandler]

/-- C10 witness: the camelCase relationship `exoMoons` of the test
schema reads at `/:id/exoMoons` but mutates at
`/:id/relationships/exo-moons`. -/
theorem claim_C10_witness :
    (("exoMoons", RelationshipDef.mk .hasMany "moon")
        ∈ modelRelationships testSchema "planet")
    ∧ ("exoMoons" : String).data.any Char.isUpper = true
    ∧ "exoMoons" ≠ dasherize "exoMoons" :=
  ⟨by decide, by decide,
    (claim_C10 testSchema "planet" "exoMoons" ⟨.hasMany, "moon"⟩
      (by decide) (by decide)).2.2⟩

theorem isGet_eq_true_iff (r : RouteDefinition) :
    isGet r = true ↔ r.method = .get := by
  cases r with
  | mk m u t rel h => cases m <;> simp [isGet]

theorem relationshipRoutes_readonly (schema : Schema) (ser : SerializerModel)
    (type property : String) (kind : RelKind) :
    relationshipRoutes ⟨schema, ser, true⟩ type property kind
      = (relationshipRoutes ⟨schema, ser, false⟩ type property kind).filter isGet := by
  cases kind <;> rfl

theorem filter_flatMap_comm {α β : Type} (l : List α) (f : α → List β)
    (p : β → Bool) :
    (l.flatMap f).filter p = l.flatMap fun a => (f a).filter p := by
  induction l with
  | nil => rfl
  | cons a rest ih => simp [List.flatMap_cons, List.filter_append, ih]

theorem resourceRoutes_readonly (schema : Schema) (ser : SerializerModel)
    (type : String) :
    resourceRoutes ⟨schema, ser, true⟩ type
      = (resourceRoutes ⟨schema, ser, false⟩ type).filter isGet := by
  unfold resourceRoutes
  rw [List.filter_append, filter_flatMap_comm]
  refine congrArg₂ (· ++ ·) rfl ?_
  exact congrArg _
    (funext fun pr => relationshipRoutes_readonly schema ser type pr.1 pr.2.kind)

theorem relationshipRoutes_handler (args : RouteHandlersArgs)
    (type property : String) (kind : RelKind) :
    ∀ r ∈ relationshipRoutes args type property kind, r.handler ≠ .operations := by
  intro r hr
  obtain ⟨schema, ser, ro⟩ := args
  cases kind with
  | hasMany =>
    cases ro with
    | true =>
      simp [relationshipRoutes] at hr
      subst hr
      simp
    | false =>
      simp [relationshipRoutes] at hr
      rcases hr with rfl | rfl | rfl | rfl <;> simp
  | hasOne =>
    cases ro with
    | true =>
      simp [relationshipRoutes] at hr
      subst hr
      simp
    | false =>
      simp [relationshipRoutes] at hr
      rcases hr with rfl | rfl <;> simp

theorem resourceRoutes_handler (args : RouteHandlersArgs) (type : String) :
    ∀ r ∈ resourceRoutes args type, r.handler ≠ .operations := by
  intro r hr
  unfold resourceRoutes at hr
  rw [List.mem_append] at hr
  rcases hr with hbase | hrel
  · obtain ⟨schema, ser, ro⟩ := args
    cases ro <;> simp [List.mem_append] at hbase <;>
      rcases hbase with rfl | rfl | rfl | rfl | rfl <;> simp
  · rw [List.mem_flatMap] at hrel
    obtain ⟨pr, hpr, hr⟩ := hrel
    exact relationshipRoutes_handler args type pr.1 pr.2.kind r hr

/-- C1: with `readonly=true` the emitted route collection has no
route other than GET ones (so no POST/PATCH/DELETE route), no group
with the `/operations` endpoint and no route bound to the operations
handler, while the route groups are exactly those of `readonly=false`
with non-GET routes stripped; the stripping happens in the route-list
construction itself, not per request. -/
theorem claim_C1 (schema : Schema) (ser : SerializerModel)
    (hop : ∀ tm ∈ schema.models, ser.resourceType tm.1 ≠ "/operations") :
    (∀ g ∈ routeHandlers ⟨schema, ser, true⟩,
        g.1 ≠ "/operations"
        ∧ ∀ r ∈ g.2, r.method = .get ∧ r.handler ≠ .operations)
    ∧ routeHandlers ⟨schema, ser, true⟩
        = (routeHandlers ⟨schema, ser, false⟩).filterMap
            (fun g => if g.1 = "/operations" then none
                      else some (g.1, g.2.filter isGet)) := by
  have h1 : routeHandlers ⟨schema, ser, true⟩
      = schema.models.map
          (fun tm => (ser.resourceType tm.1, resourceRoutes ⟨schema, ser, true⟩ tm.1)) := by
    simp [routeHandlers]
  have h2 : routeHandlers ⟨schema, ser, false⟩
      = schema.models.map
          (fun tm => (ser.resourceType tm.1, resourceRoutes ⟨schema, ser, false⟩ tm.1))
        ++ [("/operations", [⟨.patch, "/", "operations", none, .operations⟩])] := by
    simp [routeHandlers]
  constructor
  · intro g hg
    rw [h1] at hg
    rw [List.mem_map] at hg
    obtain ⟨tm, htm, rfl⟩ := hg
    refine ⟨hop tm htm, ?_⟩
    intro r hr
    rw [resourceRoutes_readonly] at hr
    rw [List.mem_filter] at hr
    exact ⟨(isGet_eq_true_iff r).mp hr.2,
      resourceRoutes_handler ⟨schema, ser, false⟩ tm.1 r hr.1⟩
  · rw [h1, h2]
    rw [List.filterMap_append]
    have hops : List.filterMap
        (fun g : String × List RouteDefinition =>
          if g.1 = "/operations" then none else some (g.1, g.2.filter isGet))
        [("/operations", [⟨.patch, "/", "operations", none, .operations⟩])]
        = [] := by
      simp
    rw [hops, List.append_nil]
    have hmap : ∀ (ms : List (String × ModelDef)),
        (∀ tm ∈ ms, ser.resourceType tm.1 ≠ "/operations") →
        List.filterMap
          (fun g : String × List RouteDefinition =>
            if g.1 = "/operations" then none else some (g.1, g.2.filter isGet))
          (ms.map (fun tm =>
            (ser.resourceType tm.1, resourceRoutes ⟨schema, ser, false⟩ tm.1)))
        = ms.map (fun tm =>
            (ser.resourceType tm.1, resourceRoutes ⟨schema, ser, true⟩ tm.1)) := by
      intro ms hms
      induction ms with
      | nil => rfl
      | cons tm rest ih =>
        simp only [List.map_cons, List.filterMap_cons]
        rw [if_neg (hms tm (List.mem_cons_self tm rest))]
        rw [ih (fun x hx => hms x (List.mem_cons_of_mem tm hx))]
        rw [← resourceRoutes_readonly]
    exact (hmap schema.models hop).symm

/-- C1 witness: the readonly route collection of the test schema. -/
theorem claim_C1_witness :
    (∀ tm ∈ testSchema.models,
        (defaultSerializer testSchema).resourceType tm.1 ≠ "/operations")
    ∧ (∀ g ∈ routeHandlers ⟨testSchema, defaultSerializer testSchema, true⟩,
        g.1 ≠ "/operations"
        ∧ ∀ r ∈ g.2, r.method = .get ∧ r.handler ≠ .operations) :=
  ⟨by decide,
    (claim_C1 testSchema (defaultSerializer testSchema) (by decide)).1⟩

/-- C6: for every attribute of a model type, the generated
`WhereInput` input type (named after the classified type) carries the
equality, `_not`, `_in` and `_not_in` fields for that attribute, the
generated `OrderByInput` enum carries `id_ASC` / `id_DESC` and the
`_ASC` / `_DESC` pair for that attribute, and the plural root query
field accepts the `where` and `orderBy` arguments referencing them. -/
theorem claim_C6 (schema : Schema) (type : String) (m : ModelDef)
    (p : String) (a : AttrKind)
    (hm : lookupStr schema.models type = some m)
    (hmem : (type, m) ∈ schema.models)
    (ha : (p, a) ∈ m.attributes) :
    (makeWhereInputType schema type).name = classify type ++ "WhereInput"
    ∧ (p, getAttributeGraphQLType a) ∈ (makeWhereInputType schema type).fields
    ∧ (p ++ "_not", getAttributeGraphQLType a)
        ∈ (makeWhereInputType schema type).fields
    ∧ (p ++ "_in", .list (getAttributeGraphQLType a))
        ∈ (makeWhereInputType schema type).fields
    ∧ (p ++ "_not_in", .list (getAttributeGraphQLType a))
        ∈ (makeWhereInputType schema type).fields
    ∧ (makeOrderByInputType schema type).name = classify type ++ "OrderByInput"
    ∧ ("id_ASC", ⟨"id", .ascending⟩) ∈ (makeOrderByInputType schema type).values
    ∧ ("id_DESC", ⟨"id", .descending⟩) ∈ (makeOrderByInputType schema type).values
    ∧ (p ++ "_ASC", ⟨p, .ascending⟩) ∈ (makeOrderByInputType schema type).values
    ∧ (p ++ "_DESC", ⟨p, .descending⟩) ∈ (makeOrderByInputType schema type).values
    ∧ GQLField.mk (schema.pluralize type)
        (.nonNull (.list (.objectRef (classify type))))
        [⟨"orderBy", .enumRef (classify type ++ "OrderByInput")⟩,
         ⟨"where", .inputRef (classify type ++ "WhereInput")⟩]
      ∈ makeQueryFields schema := by
  have hattr : modelAttributes schema type = m.attributes := by
    simp [modelAttributes, hm]
  refine ⟨rfl, ?_, ?_, ?_, ?_, rfl, ?_, ?_, ?_, ?_, ?_⟩
  · simp only [makeWhereInputType, hattr]
    rw [List.mem_append]
    right
    rw [List.mem_flatMap]
    exact ⟨(p, a), ha, by simp⟩
  · simp only [makeWhereInputType, hattr]
    rw [List.mem_append]
    right
    rw [List.mem_flatMap]
    exact ⟨(p, a), ha, by simp⟩
  · simp only [makeWhereInputType, hattr]
    rw [List.mem_append]
    right
    rw [List.mem_flatMap]
    exact ⟨(p, a), ha, by simp⟩
  · simp only [makeWhereInputType, hattr]
    rw [List.mem_append]
    right
    rw [List.mem_flatMap]
    exact ⟨(p, a), ha, by simp⟩
  · simp [makeOrderByInputType]
  · simp [makeOrderByInputType]
  · simp only [makeOrderByInputType, hattr]
    rw [List.mem_append]
    right
    rw [List.mem_flatMap]
    exact ⟨(p, a), ha, by simp⟩
  · simp only [makeOrderByInputType, hattr]
    rw [List.mem_append]
    right
    rw [List.mem_flatMap]
    exact ⟨(p, a), ha, by simp⟩
  · unfold makeQueryFields
    rw [List.mem_flatMap]
    exact ⟨(type, m), hmem, by simp [makeOrderByInputType, makeWhereInputType]⟩

/-- C6 witness: the `name` attribute of the planet model of the test
schema, and the plural `planets` query field. -/
theorem claim_C6_witness :
    lookupStr testSchema.models "planet" = some planetModel
    ∧ ("planet", planetModel) ∈ testSchema.models
    ∧ ("name", .string) ∈ planetModel.attributes
    ∧ ("name_not_in", GQLType.list .string)
        ∈ (makeWhereInputType testSchema "planet").fields :=
  ⟨by decide, by decide, by decide,
    (claim_C6 testSchema "planet" planetModel "name" .string
      (by decide) (by decide) (by decide)).2.2.2.2.1⟩

theorem lookupNat_setNat_self {α : Type} (t : List (Nat × α)) (c : Nat) (v : α) :
    lookupNat (setNat t c v) c = some v := by
  induction t with
  | nil => simp [setNat, lookupNat]
  | cons kv rest ih =>
    by_cases h : kv.1 = c
    · simp [setNat, h, lookupNat]
    · simp [setNat, h, lookupNat, ih]

theorem lookupNat_setNat_ne {α : Type} (t : List (Nat × α)) (c c' : Nat) (v : α)
    (h : c' ≠ c) :
    lookupNat (setNat t c v) c' = lookupNat t c' := by
  induction t with
  | nil =>
    simp only [setNat, lookupNat]
    rw [if_neg (fun hh => h hh.symm)]
  | cons kv rest ih =>
    by_cases hk : kv.1 = c
    · simp only [setNat, if_pos hk, lookupNat]
      rw [if_neg (fun hh => h hh.symm), if_neg (fun hh => h (hk ▸ hh).symm)]
    · simp only [setNat, if_neg hk, lookupNat]
      by_cases hk' : kv.1 = c'
      · rw [if_pos hk', if_pos hk']
      · rw [if_neg hk', if_neg hk', ih]

theorem storedIn_of_lookup_getD (s : LoaderState) (ctx : Nat) (ns : String) (l : Nat)
    (h : lookupStr ((lookupNat s.table ctx).getD []) ns = some l) :
    storedIn s ctx ns l := by
  cases hm : lookupNat s.table ctx with
  | none =>
    rw [hm] at h
    simp [lookupStr] at h
  | some m =>
    rw [hm] at h
    exact ⟨m, hm, h⟩

theorem getDataLoader_stored (ctx : Nat) (ns : String) (s : LoaderState) :
    storedIn (getDataLoader ctx ns s).2 ctx ns (getDataLoader ctx ns s).1 := by
  unfold getDataLoader
  cases h : lookupStr ((lookupNat s.table ctx).getD []) ns with
  | some l =>
    simp only [h]
    exact storedIn_of_lookup_getD s ctx ns l h
  | none =>
    simp only [h]
    refine ⟨(ns, s.next) :: (lookupNat s.table ctx).getD [], ?_, ?_⟩
    · exact lookupNat_setNat_self s.table ctx _
    · simp [lookupStr]

theorem getDataLoader_cached (ctx : Nat) (ns : String) (s : LoaderState)
    (l : Nat) (m : List (String × Nat))
    (hm : lookupNat s.table ctx = some m) (hl : lookupStr m ns = some l) :
    getDataLoader ctx ns s = (l, s) := by
  unfold getDataLoader
  rw [hm]
  simp [hl]

theorem storedIn_fresh (s : LoaderState) (ctx : Nat) (ns : String)
    (c' : Nat) (ns' : String) (l : Nat) :
    storedIn
        ⟨setNat s.table ctx ((ns, s.next) :: (lookupNat s.table ctx).getD []),
         s.next + 1⟩ c' ns' l
      ↔ (c' = ctx ∧ ((ns' = ns ∧ l = s.next) ∨ (ns' ≠ ns ∧ storedIn s ctx ns' l)))
        ∨ (c' ≠ ctx ∧ storedIn s c' ns' l) := by
  by_cases hc : c' = ctx
  · subst hc
    constructor
    · rintro ⟨m', hm', hl⟩
      rw [lookupNat_setNat_self] at hm'
      cases hm'
      left
      refine ⟨rfl, ?_⟩
      by_cases hns : ns' = ns
      · subst hns
        left
        refine ⟨rfl, ?_⟩
        simp [lookupStr] at hl
        exact hl.symm
      · right
        refine ⟨hns, ?_⟩
        simp only [lookupStr] at hl
        rw [if_neg (fun hh => hns hh.symm)] at hl
        exact storedIn_of_lookup_getD s c' ns' l hl
    · rintro (⟨-, hin⟩ | ⟨hne, -⟩)
      · rcases hin with ⟨rfl, rfl⟩ | ⟨hns, hst⟩
        · exact ⟨_, lookupNat_setNat_self s.table c' _, by simp [lookupStr]⟩
        · obtain ⟨m, hm, hl⟩ := hst
          refine ⟨_, lookupNat_setNat_self s.table c' _, ?_⟩
          simp only [lookupStr]
          rw [if_neg (fun hh => hns hh.symm), hm]
          exact hl
      · exact absurd rfl hne
  · constructor
    · rintro ⟨m', hm', hl⟩
      rw [lookupNat_setNat_ne s.table ctx c' _ hc] at hm'
      exact Or.inr ⟨hc, m', hm', hl⟩
    · rintro (⟨hcc, -⟩ | ⟨-, m', hm', hl⟩)
      · exact absurd hcc hc
      · refine ⟨m', ?_, hl⟩
        rw [lookupNat_setNat_ne s.table ctx c' _ hc]
        exact hm'

theorem wf_getDataLoader (ctx : Nat) (ns : String) (s : LoaderState)
    (hwf : WFLoader s) : WFLoader (getDataLoader ctx ns s).2 := by
  unfold getDataLoader
  cases h : lookupStr ((lookupNat s.table ctx).getD []) ns with
  | some l =>
    simp only [h]
    exact hwf
  | none =>
    simp only [h]
    constructor
    · intro c' ns' l hst
      rw [storedIn_fresh] at hst
      rcases hst with ⟨-, ⟨-, rfl⟩ | ⟨-, hold⟩⟩ | ⟨-, hold⟩
      · exact Nat.lt_succ_self _
      · exact Nat.lt_succ_of_lt (hwf.1 ctx ns' l hold)
      · exact Nat.lt_succ_of_lt (hwf.1 c' ns' l hold)
    · intro c₁ ns₁ c₂ ns₂ l h₁ h₂
      rw [storedIn_fresh] at h₁ h₂
      rcases h₁ with ⟨rfl, ⟨hns₁, rfl⟩ | ⟨hns₁, hold₁⟩⟩ | ⟨hc₁, hold₁⟩
      · rcases h₂ with ⟨rfl, ⟨hns₂, -⟩ | ⟨-, hold₂⟩⟩ | ⟨-, hold₂⟩
        · exact ⟨rfl, hns₁.trans hns₂.symm⟩
        · exact absurd (hwf.1 _ _ _ hold₂) (Nat.lt_irrefl s.next)
        · exact absurd (hwf.1 _ _ _ hold₂) (Nat.lt_irrefl s.next)
      · rcases h₂ with ⟨rfl, ⟨-, rfl⟩ | ⟨-, hold₂⟩⟩ | ⟨hc₂, hold₂⟩
        · exact absurd (hwf.1 _ _ _ hold₁) (Nat.lt_irrefl s.next)
        · exact ⟨rfl, (hwf.2 _ _ _ _ _ hold₁ hold₂).2⟩
        · exact absurd (hwf.2 _ _ _ _ _ hold₁ hold₂).1 (fun hh => hc₂ hh.symm)
      · rcases h₂ with ⟨rfl, ⟨-, rfl⟩ | ⟨-, hold₂⟩⟩ | ⟨-, hold₂⟩
        · exact absurd (hwf.1 _ _ _ hold₁) (Nat.lt_irrefl s.next)
        · exact absurd (hwf.2 _ _ _ _ _ hold₁ hold₂).1 hc₁
        · exact hwf.2 _ _ _ _ _ hold₁ hold₂

theorem getDataLoader_of_lookup_some (ctx : Nat) (ns : String) (s : LoaderState)
    (l : Nat) (h : lookupStr ((lookupNat s.table ctx).getD []) ns = some l) :
    getDataLoader ctx ns s = (l, s) := by
  unfold getDataLoader
  simp only [h]

theorem getDataLoader_of_lookup_none (ctx : Nat) (ns : String) (s : LoaderState)
    (h : lookupStr ((lookupNat s.table ctx).getD []) ns = none) :
    getDataLoader ctx ns s
      = (s.next,
         ⟨setNat s.table ctx ((ns, s.next) :: (lookupNat s.table ctx).getD []),
          s.next + 1⟩) := by
  unfold getDataLoader
  simp only [h]

/-- C9: the loader lookup is memoized per (context, namespace) — an
immediate repeat of a call with the same context and namespace returns
the same loader instance and leaves the state unchanged — and two
distinct context objects never share a loader instance: a lookup under
a different context, for any namespace, returns a different loader. -/
theorem claim_C9 (s : LoaderState) (ctx₁ ctx₂ : Nat) (ns₁ ns₂ : String)
    (hwf : WFLoader s) (hne : ctx₁ ≠ ctx₂) :
    getDataLoader ctx₁ ns₁ (getDataLoader ctx₁ ns₁ s).2
        = ((getDataLoader ctx₁ ns₁ s).1, (getDataLoader ctx₁ ns₁ s).2)
    ∧ (getDataLoader ctx₂ ns₂ (getDataLoader ctx₁ ns₁ s).2).1
        ≠ (getDataLoader ctx₁ ns₁ s).1 := by
  have h1 := getDataLoader_stored ctx₁ ns₁ s
  obtain ⟨m₁, hm₁, hl₁⟩ := h1
  constructor
  · exact getDataLoader_cached ctx₁ ns₁ _ _ m₁ hm₁ hl₁
  · have hwf1 : WFLoader (getDataLoader ctx₁ ns₁ s).2 :=
      wf_getDataLoader ctx₁ ns₁ s hwf
    set s₁ := (getDataLoader ctx₁ ns₁ s).2 with hs₁
    cases h2 : lookupStr ((lookupNat s₁.table ctx₂).getD []) ns₂ with
    | some l₂ =>
      rw [getDataLoader_of_lookup_some ctx₂ ns₂ s₁ l₂ h2]
      intro heq
      have hst₂ : storedIn s₁ ctx₂ ns₂ (getDataLoader ctx₁ ns₁ s).1 := by
        rw [← heq]
        exact storedIn_of_lookup_getD s₁ ctx₂ ns₂ _ h2
      have hst₁ : storedIn s₁ ctx₁ ns₁ (getDataLoader ctx₁ ns₁ s).1 :=
        ⟨m₁, hm₁, hl₁⟩
      exact hne (hwf1.2 ctx₁ ns₁ ctx₂ ns₂ _ hst₁ hst₂).1
    | none =>
      rw [getDataLoader_of_lookup_none ctx₂ ns₂ s₁ h2]
      have hlt : (getDataLoader ctx₁ ns₁ s).1 < s₁.next :=
        hwf1.1 ctx₁ ns₁ _ ⟨m₁, hm₁, hl₁⟩
      intro heq
      have heq' : s₁.next = (getDataLoader ctx₁ ns₁ s).1 := heq
      omega

theorem wf_empty_loader : WFLoader ⟨[], 0⟩ := by
  constructor
  · rintro c ns l ⟨m, hm, -⟩
    simp [lookupNat] at hm
  · rintro c₁ ns₁ c₂ ns₂ l ⟨m, hm, -⟩ -
    simp [lookupNat] at hm

/-- C9 witness: starting from the empty loader state, context 0 and
context 1 get different loaders for the same namespace. -/
theorem claim_C9_witness :
    WFLoader ⟨[], 0⟩
    ∧ (0 : Nat) ≠ 1
    ∧ (getDataLoader 1 "Planet.moons" ((getDataLoader 0 "Planet.moons" ⟨[], 0⟩).2)).1
        ≠ (getDataLoader 0 "Planet.moons" ⟨[], 0⟩).1 :=
  ⟨wf_empty_loader, by decide,
    (claim_C9 ⟨[], 0⟩ 0 1 "Planet.moons" "Planet.moons" wf_empty_loader
      (by decide)).2⟩

end OrbitServer
